import Mathlib

/-
  Verification development for the data-cleaning pipeline of the
  skylar-drone repository (src/src/lib/dataCleaner.js).

  The JavaScript source is shallowly embedded: JS cell values are either
  null/undefined or strings (`JsVal`), rows are insertion-ordered
  association lists mirroring JS object property order, and the numeric
  behaviour of `parseFloat` / `Number.prototype.toString` / `toFixed` is
  modelled in exact decimal arithmetic (an idealisation of IEEE doubles
  that agrees with the doubles on every value appearing in the claims).
-/

namespace DC

/-- A JavaScript cell value as used by dataCleaner.js: `null`/`undefined`
collapse to `.null`; everything else the cleaner manipulates is a string. -/
inductive JsVal where
  | null
  | str (s : String)
deriving DecidableEq, Repr

/-- One entry of the board snapshot's `columns` array: `{id, title}`. -/
structure Column where
  id : String
  title : String
deriving DecidableEq, Repr

/-- One entry of an item's `column_values` array: `{id, text}`;
`text` may be null in the Monday API. -/
structure ColumnValue where
  id : String
  text : JsVal
deriving DecidableEq, Repr

/-- One entry of the snapshot's `items` array: `{id, name, column_values}`. -/
structure Item where
  id : String
  name : String
  column_values : List ColumnValue
deriving DecidableEq, Repr

/-- The raw board snapshot handed to `cleanBoardData`.  Each structural
field is optional so that a snapshot missing `name`, `columns` or `items`
(JS `undefined` after destructuring) is expressible. -/
structure BoardInput where
  name : Option String
  columns : Option (List Column)
  items : Option (List Item)
deriving DecidableEq, Repr

/-- A cleaned row: a JS object modelled as an insertion-ordered association
list (JS string-keyed property order for non-index keys).  The `_id` and
`_name` properties are ordinary entries of the list, exactly as in the
source where they are plain object properties. -/
abbrev Row := List (String × JsVal)

/-- JS property assignment `row[k] = v`: replaces the value in place when
the key exists (property order is kept), otherwise appends. -/
def upsert (k : String) (v : JsVal) : Row → Row
  | [] => [(k, v)]
  | (k', v') :: rest => if k' == k then (k, v) :: rest else (k', v') :: upsert k v rest

/-- JS property read `row[k]`: an absent property reads as `undefined`,
which this model collapses into `JsVal.null`. -/
def getProp (row : Row) (k : String) : JsVal :=
  match row.find? (fun p => p.1 == k) with
  | some p => p.2
  | none => JsVal.null

/-- JS truthiness of a cell value: `null`/`undefined` and the empty string
are falsy; every non-empty string (including "0") is truthy. -/
def truthy : JsVal → Bool
  | JsVal.null => false
  | JsVal.str s => !(s == "")

/-- The emptiness test used by the row filter and the quality audit:
`v === null || v === '' || v === undefined`. -/
def isEmptyVal : JsVal → Bool
  | JsVal.null => true
  | JsVal.str s => s == ""

/-- JS `k.startsWith('_')`. -/
def underscoreFirst (s : String) : Bool :=
  match s.toList with
  | c :: _ => c == '_'
  | [] => false

/-- The non-identity entries of a row:
`Object.entries(row).filter(([k]) => !k.startsWith('_'))`. -/
def nonIdentity (row : Row) : Row :=
  row.filter (fun p => !(underscoreFirst p.1))

/-- The set of non-identity property keys of a row. -/
def keysetNonId (row : Row) : Finset String :=
  ((nonIdentity row).map Prod.fst).toFinset

/-- The whitespace class of JS `\s` and `String.prototype.trim`
(ASCII whitespace plus NBSP, the line separators and the BOM; the rarer
Unicode space characters never occur in this data model's claims). -/
def jsWhitespace (c : Char) : Bool :=
  c == ' ' || c == '\t' || c == '\n' || c == '\r' || c == '\x0b' ||
  c == '\x0c' || c == '\u00A0' || c == '\u2028' || c == '\u2029' || c == '\uFEFF'

/-- JS `s.trim()`. -/
def jsTrim (s : String) : String :=
  List.asString (((s.toList.dropWhile jsWhitespace).reverse.dropWhile jsWhitespace).reverse)

/-- JS `s.toLowerCase()` restricted to ASCII letters (the only case-carrying
characters occurring in column titles of this system). -/
def jsToLower (s : String) : String :=
  List.asString (s.toList.map (fun c =>
    if 'A' ≤ c && c ≤ 'Z' then Char.ofNat (c.toNat + 32) else c))

/-- Whether `pat` is a prefix of `l`, on character lists. -/
def prefixMatch : List Char → List Char → Bool
  | [], _ => true
  | _ :: _, [] => false
  | a :: as, b :: bs => a == b && prefixMatch as bs

/-- Whether `pat` occurs as a contiguous substring of `l`. -/
def containsSub (pat : List Char) : List Char → Bool
  | [] => prefixMatch pat []
  | c :: rest => prefixMatch pat (c :: rest) || containsSub pat rest

/-- JS `s.includes(pat)`. -/
def strContains (s pat : String) : Bool :=
  containsSub pat.toList s.toList

/-- The numeric value of a list of decimal digit characters. -/
def digitsToNat (l : List Char) : ℕ :=
  l.foldl (fun n c => 10 * n + (c.toNat - 48)) 0

/-- The digits of the exponent part of a `parseFloat` input (0 when absent). -/
def expDigits (l : List Char) : ℤ :=
  (digitsToNat (l.takeWhile Char.isDigit) : ℤ)

/-- The exponent denoted by the optional `[eE][+-]?digits` trailer of a
`parseFloat` input; a trailer without digits contributes exponent 0,
exactly as the JS grammar leaves it unconsumed. -/
def expVal (l : List Char) : ℤ :=
  match l with
  | c :: rest =>
      if c == 'e' || c == 'E' then
        match rest with
        | s :: r2 =>
            if s == '+' then expDigits r2
            else if s == '-' then -expDigits r2
            else expDigits (s :: r2)
        | [] => 0
      else 0
  | [] => 0

/-- A JS number as `parseFloat` produces it from decimal text: the value
`mant × 10^e`, negated when `neg` is set.  Decimal fixed-point is exact for
every value this pipeline computes with (an idealisation of IEEE doubles
that agrees with them on all values appearing in the claims). -/
structure JsNum where
  neg : Bool
  mant : ℕ
  e : ℤ
deriving DecidableEq, Repr

/-- The rational value of a `JsNum` (specification-level view). -/
def JsNum.toQ (x : JsNum) : ℚ :=
  (if x.neg then -1 else 1) * (x.mant : ℚ) * (10 : ℚ) ^ x.e

/-- JS `parseFloat`: skip leading whitespace, then parse the longest prefix
of the form `[+-]?(digits[.digits?]|.digits)([eE][+-]?digits)?`; `none`
models `NaN`.  (The `Infinity` literal, and IEEE rounding of more than 17
significant digits, are outside this model; no claim depends on them.) -/
def jsParseFloat (s : String) : Option JsNum :=
  let l := s.toList.dropWhile jsWhitespace
  let sgnRest : Bool × List Char :=
    match l with
    | c :: rest =>
        if c == '+' then (false, rest) else if c == '-' then (true, rest) else (false, l)
    | [] => (false, [])
  let ip := sgnRest.2.takeWhile Char.isDigit
  let l2 := sgnRest.2.dropWhile Char.isDigit
  let fpRest : List Char × List Char :=
    match l2 with
    | c :: rest =>
        if c == '.' then (rest.takeWhile Char.isDigit, rest.dropWhile Char.isDigit)
        else ([], l2)
    | [] => ([], [])
  if ip.isEmpty && fpRest.1.isEmpty then none
  else
    some { neg := sgnRest.1
           mant := digitsToNat (ip ++ fpRest.1)
           e := expVal fpRest.2 - (fpRest.1.length : ℤ) }

/-- Fuel-driven removal of trailing decimal zeros: returns `(m', k)` with
`m = m' × 10^k` and (for `m ≠ 0`) `m'` not divisible by 10. -/
def stripZerosAux : ℕ → ℕ → ℕ × ℕ
  | 0, m => (m, 0)
  | fuel + 1, m =>
      if m ≠ 0 ∧ m % 10 = 0 then
        let r := stripZerosAux fuel (m / 10)
        (r.1, r.2 + 1)
      else (m, 0)

/-- Remove trailing decimal zeros from a natural number. -/
def stripZeros (m : ℕ) : ℕ × ℕ :=
  stripZerosAux m m

/-- Left-pad a string with zeros up to length `k`
(JS `padStart(k, '0')`, and the fraction padding of `toFixed`). -/
def leftPadZeros (k : ℕ) (s : String) : String :=
  if k ≤ s.length then s else List.asString (List.replicate (k - s.length) '0') ++ s

/-- JS `Number.prototype.toString` on the modelled numbers: canonical
shortest decimal notation, `"0"` for ±0 (plain notation; the exponential
notation JS switches to beyond 1e21 / below 1e-7 is outside the claims). -/
def jsNumToString (x : JsNum) : String :=
  let s := stripZeros x.mant
  let e : ℤ := x.e + (s.2 : ℤ)
  if s.1 = 0 then "0"
  else
    let core :=
      if 0 ≤ e then Nat.repr s.1 ++ List.asString (List.replicate e.toNat '0')
      else
        let k := (-e).toNat
        Nat.repr (s.1 / 10 ^ k) ++ "." ++ leftPadZeros k (Nat.repr (s.1 % 10 ^ k))
    if x.neg then "-" ++ core else core

/-- Rendering of an integer count of tenths as a one-decimal string
(the shape of every `toFixed(1)` output). -/
def tenthsRender (n : ℕ) : String :=
  Nat.repr (n / 10) ++ "." ++ Nat.repr (n % 10)

/-- Digit string of `(num / den).toFixed(1)` for `num den : ℕ`, `den ≠ 0`:
the tenths count is the exactly rounded `num / den × 10`, ties up. -/
def fixed1DigitsNN (num den : ℕ) : String :=
  tenthsRender ((20 * num + den) / (2 * den))

/-- JS `(num / den).toFixed(1)` for a signed numerator (ties away from
zero, exactly the `toFixed` specification applied to the exact ratio). -/
def fixed1Ratio (num : ℤ) (den : ℕ) : String :=
  if num < 0 then "-" ++ fixed1DigitsNN (-num).toNat den else fixed1DigitsNN num.toNat den

/-- Specification-level JS `q.toFixed(1)` over the exact rationals:
round to the nearest tenth, ties away from zero. -/
def qToFixed1 (q : ℚ) : String :=
  if q < 0 then "-" ++ tenthsRender ⌊-q * 10 + 1 / 2⌋₊
  else tenthsRender ⌊q * 10 + 1 / 2⌋₊

/-- Digit string of `toFixed k` for a non-negative rational
(specification-level; used only by the renderer's number abbreviation). -/
def qFixedDigits (k : ℕ) (q : ℚ) : String :=
  let n := ⌊q * (10 : ℚ) ^ k + 1 / 2⌋₊
  if k = 0 then Nat.repr n
  else Nat.repr (n / 10 ^ k) ++ "." ++ leftPadZeros k (Nat.repr (n % 10 ^ k))

/-- Specification-level JS `q.toFixed(k)` (round to `k` decimals, ties away
from zero). -/
def qToFixed (k : ℕ) (q : ℚ) : String :=
  if q < 0 then "-" ++ qFixedDigits k (-q) else qFixedDigits k q

/-- The `^\d{4}-\d{2}-\d{2}` prefix test of `normalizeDate`
("already ISO-ish"). -/
def hasIsoStart (s : String) : Bool :=
  match s.toList with
  | c1 :: c2 :: c3 :: c4 :: c5 :: c6 :: c7 :: c8 :: c9 :: c10 :: _ =>
      c1.isDigit && c2.isDigit && c3.isDigit && c4.isDigit && c5 == '-' &&
      c6.isDigit && c7.isDigit && c8 == '-' && c9.isDigit && c10.isDigit
  | _ => false

/-- The anchored match `^(\d{1,2})[\/\-](\d{1,2})[\/\-](\d{4})$` of
`normalizeDate`, returning the three captured groups.  Maximal digit runs
are equivalent to the regex with backtracking because each separator is a
non-digit. -/
def parseDMY (s : String) : Option (String × String × String) :=
  let l := s.toList
  let d := l.takeWhile Char.isDigit
  let r1 := l.dropWhile Char.isDigit
  if d.length = 0 ∨ 2 < d.length then none
  else
    match r1 with
    | s1 :: r2 =>
        if s1 == '/' || s1 == '-' then
          let m := r2.takeWhile Char.isDigit
          let r3 := r2.dropWhile Char.isDigit
          if m.length = 0 ∨ 2 < m.length then none
          else
            match r3 with
            | s2 :: r4 =>
                if s2 == '/' || s2 == '-' then
                  let y := r4.takeWhile Char.isDigit
                  let r5 := r4.dropWhile Char.isDigit
                  if y.length = 4 ∧ r5 = [] then
                    some (List.asString d, List.asString m, List.asString y)
                  else none
                else none
            | [] => none
        else none
    | [] => none

/-- JS `padStart(2, '0')` on a captured group. -/
def padTo2 (s : String) : String :=
  leftPadZeros 2 s

/-- Function `normalizeDate` (dataCleaner.js lines 107-118).  The source's second,
MM/DD branch re-matches the identical regular expression after the first
branch has already returned, so it is unreachable; the embedding reflects
the executed day-first branch. -/
def normalizeDate (s : String) : JsVal :=
  if s == "" then JsVal.null
  else if hasIsoStart s then JsVal.str (List.asString (s.toList.take 10))
  else
    match parseDMY s with
    | some (d, m, y) => JsVal.str (y ++ "-" ++ padTo2 m ++ "-" ++ padTo2 d)
    | none => JsVal.str s

/-- The `str.replace(/[₹$,\s]/g, '')` strip of `normalizeNumber`. -/
def stripCurrency (s : String) : String :=
  List.asString (s.toList.filter (fun c => !(c == '₹' || c == '$' || c == ',' || jsWhitespace c)))

/-- Function `normalizeNumber` (dataCleaner.js lines 120-126). -/
def normalizeNumber (s : String) : JsVal :=
  if s == "" then JsVal.null
  else
    match jsParseFloat (stripCurrency s) with
    | none => JsVal.str s
    | some q => JsVal.str (jsNumToString q)

/-- Function `cleanValue` (dataCleaner.js lines 80-105). -/
def cleanValue (text : JsVal) (columnTitle : String) : JsVal :=
  match text with
  | JsVal.null => JsVal.null
  | JsVal.str s =>
      if s == "" then JsVal.null
      else if s == "#VALUE!" then JsVal.null
      else
        let t := jsTrim s
        if t == "" then JsVal.null
        else
          let lower := jsToLower columnTitle
          if strContains lower "date" then normalizeDate t
          else if strContains lower "amount" || strContains lower "value" ||
              strContains lower "billed" || strContains lower "collected" ||
              strContains lower "receivable" then normalizeNumber t
          else JsVal.str t

/-- The `id → title` column map of `cleanBoardData` (built by `forEach`
assignment, so the last column with a given id wins), queried at one id. -/
def colMapLookup (columns : List Column) (i : String) : Option String :=
  columns.foldl (fun acc c => if c.id == i then some c.title else acc) none

/-- The resolved title of a field: `colMap[cv.id] || cv.id` (an unresolved
id, or an id whose column title is the falsy empty string, keeps the id). -/
def resolveTitle (columns : List Column) (i : String) : String :=
  match colMapLookup columns i with
  | some t => if t == "" then i else t
  | none => i

/-- JS `Object.keys(colMap).length`: the number of distinct column ids. -/
def colMapSize (columns : List Column) : ℕ :=
  ((columns.map Column.id).dedup).length

/-- One step of the row-building loop of `cleanBoardData` (line 20-23):
`row[title] = cleanValue(cv.text, title)`. -/
def rowStep (columns : List Column) (row : Row) (cv : ColumnValue) : Row :=
  upsert (resolveTitle columns cv.id) (cleanValue cv.text (resolveTitle columns cv.id)) row

/-- The flat row object built from one item (dataCleaner.js lines 18-25):
`{_id, _name}` seeded first, then every field upserted under its resolved
column title. -/
def buildRow (columns : List Column) (item : Item) : Row :=
  item.column_values.foldl (rowStep columns)
    [("_id", JsVal.str item.id), ("_name", JsVal.str item.name)]

/-- Drop rule A of the row filter (lines 30-35): the item name is falsy and
every non-identity value is null/empty. -/
def ruleA (row : Row) : Bool :=
  !truthy (getProp row "_name") && (nonIdentity row).all (fun p => isEmptyVal p.2)

/-- Drop rule B of the row filter (lines 37-39): some non-identity value is
a string equal to the title of its own column. -/
def isHeaderRow (row : Row) : Bool :=
  (nonIdentity row).any (fun p =>
    match p.2 with
    | JsVal.str v => v == p.1
    | JsVal.null => false)

/-- JS `row._name || dflt`. -/
def displayOr (row : Row) (dflt : String) : String :=
  match getProp row "_name" with
  | JsVal.str s => if s == "" then dflt else s
  | JsVal.null => dflt

/-- The quality issue recorded for a rule-B drop (line 42). -/
def headerIssue (row : Row) : String :=
  "Removed embedded header row (item: \"" ++ displayOr row "empty" ++ "\")"

/-- One step of the row filter of `cleanBoardData` (lines 28-46), threading
the kept rows, the `removedRows` counter and the pushed quality issues.
Rule A is tested before rule B, exactly as in the source. -/
def filterStep (acc : List Row × ℕ × List String) (row : Row) : List Row × ℕ × List String :=
  if ruleA row then (acc.1, acc.2.1 + 1, acc.2.2)
  else if isHeaderRow row then (acc.1, acc.2.1 + 1, acc.2.2 ++ [headerIssue row])
  else (acc.1 ++ [row], acc.2.1, acc.2.2)

/-- Counter `missingFields` (lines 50-57): over every kept row, the number of
non-identity entries whose value is null/empty. -/
def missingCount (rows : List Row) : ℕ :=
  (rows.map (fun row => ((nonIdentity row).filter (fun p => isEmptyVal p.2)).length)).sum

/-- The summary issue for removed rows (line 60). -/
def removedNote (n : ℕ) : String :=
  "Removed " ++ Nat.repr n ++ " junk/empty/header rows"

/-- The percentage text of the missing-fields issue (line 62); a zero
`totalFields` denominator yields JS `NaN`. -/
def pctText (m t : ℕ) : String :=
  if t = 0 then "NaN" else fixed1DigitsNN (m * 100) t

/-- The summary issue for missing fields (line 62). -/
def missingNote (m t : ℕ) : String :=
  Nat.repr m ++ " of " ++ Nat.repr t ++ " field values are missing/null (" ++ pctText m t ++ "%)"

/-- The `stats` object of the cleaned board (lines 68-75).  `completeness`
is the string `toFixed(1)` produces ("100" for an empty field set). -/
structure Stats where
  totalRows : ℕ
  cleanedRows : ℕ
  removedRows : ℕ
  missingFields : ℕ
  totalFields : ℕ
  completeness : String
deriving DecidableEq, Repr

/-- The value `cleanBoardData` returns (lines 64-77). -/
structure CleanedBoard where
  boardName : Option String
  columns : List String
  data : List Row
  stats : Stats
  qualityIssues : List String
deriving DecidableEq, Repr

/-- The body of `cleanBoardData` once `columns` and `items` are present
(destructuring never fails on present fields, and nothing else throws). -/
def cleanBoardCore (name : Option String) (columns : List Column) (items : List Item) :
    CleanedBoard :=
  let rows := items.map (buildRow columns)
  let res := rows.foldl filterStep ([], 0, [])
  let totalFields := res.1.length * colMapSize columns
  let missingFields := missingCount res.1
  let issues1 := if 0 < res.2.1 then res.2.2 ++ [removedNote res.2.1] else res.2.2
  let issues := if 0 < missingFields then issues1 ++ [missingNote missingFields totalFields] else issues1
  { boardName := name
    columns := (columns.map Column.title).filter (fun t => !(t == "Name"))
    data := res.1
    stats :=
      { totalRows := items.length
        cleanedRows := res.1.length
        removedRows := res.2.1
        missingFields := missingFields
        totalFields := totalFields
        completeness :=
          if totalFields = 0 then "100"
          else fixed1Ratio (((totalFields : ℤ) - (missingFields : ℤ)) * 100) totalFields }
    qualityIssues := issues }

/-- A thrown JS exception. -/
inductive JsError where
  | typeError (message : String)
deriving DecidableEq, Repr

/-- Function `cleanBoardData` (dataCleaner.js lines 6-78).  A snapshot whose
`columns` (resp. `items`) destructures to `undefined` throws a `TypeError`
at `columns.forEach` (resp. `items.map`); a missing `name` is not detected
anywhere and flows through to `boardName`. -/
def cleanBoardData (b : BoardInput) : Except JsError CleanedBoard :=
  match b.columns with
  | none => Except.error (JsError.typeError "Cannot read properties of undefined (reading forEach)")
  | some columns =>
      match b.items with
      | none => Except.error (JsError.typeError "Cannot read properties of undefined (reading map)")
      | some items => Except.ok (cleanBoardCore b.name columns items)

/-- The key a row is bucketed under by `groupBy` (line 164):
`row[key] || row._name || 'Unknown'` — JS truthiness, so the empty string
falls through but any non-empty string (for example "0") is its own key. -/
def nameKeyOf (row : Row) : String :=
  match getProp row "_name" with
  | JsVal.str s => if s == "" then "Unknown" else s
  | JsVal.null => "Unknown"

/-- See `nameKeyOf`; the full `row[key] || row._name || 'Unknown'` chain. -/
def groupKeyOf (row : Row) (key : String) : String :=
  match getProp row key with
  | JsVal.str s => if s == "" then nameKeyOf row else s
  | JsVal.null => nameKeyOf row

/-- Appending a row to its group (lines 165-166): an existing key keeps its
position and gets the row appended; a new key is appended at the end. -/
def pushGroup (k : String) (row : Row) : List (String × List Row) → List (String × List Row)
  | [] => [(k, [row])]
  | (k', rs) :: rest =>
      if k' == k then (k', rs ++ [row]) :: rest else (k', rs) :: pushGroup k row rest

/-- One step of the `groupBy` loop. -/
def groupStep (key : String) (gs : List (String × List Row)) (row : Row) :
    List (String × List Row) :=
  pushGroup (groupKeyOf row key) row gs

/-- Function `groupBy` (dataCleaner.js lines 161-169), as the insertion-ordered list
of `(key, rows)` groups.  (JS `Object.entries` would move integer-like keys
to the front; no claim depends on entry order, only on the groups' joint
content.) -/
def groupBy (data : List Row) (key : String) : List (String × List Row) :=
  data.foldl (groupStep key) []

/-- The rows of the group keyed `k` (empty when no such group). -/
def lookupG : List (String × List Row) → String → List Row
  | [], _ => []
  | g :: rest, k => if g.1 == k then g.2 else lookupG rest k

/-- Function `findCol` (line 157): the first key whose lowercased form contains one
of the patterns, else null. -/
def findCol (keys : List String) (patterns : List String) : Option String :=
  keys.find? (fun k => patterns.any (fun p => strContains (jsToLower k) p))

/-- The numeric sort key `parseFloat(row[col]) || 0` of the top-20 tables
(lines 244 and 308); a null `col` reads the `"null"` property, exactly as
JS coerces a null property name. -/
def sortVal (col : Option String) (row : Row) : ℚ :=
  match getProp row (match col with | some c => c | none => "null") with
  | JsVal.null => 0
  | JsVal.str s =>
      match jsParseFloat s with
      | some x => x.toQ
      | none => 0

/-- Stable descending insertion by key: an element is placed after every
element of greater-or-equal key, so equal keys keep their original order —
the unique result of the stable `Array.prototype.sort` with comparator
`(a, b) => keyB - keyA`. -/
def insertDesc {α : Type} (f : α → ℚ) (x : α) : List α → List α
  | [] => [x]
  | y :: ys => if f x ≤ f y then y :: insertDesc f x ys else x :: y :: ys

/-- The stable descending sort `[...data].sort((a, b) => keyB - keyA)`. -/
def stableSortDesc {α : Type} (f : α → ℚ) (l : List α) : List α :=
  l.foldl (fun acc x => insertDesc f x acc) []

/-- JS `[...data].sort(...)` by descending value of `col`. -/
def sortRowsDesc (col : Option String) (data : List Row) : List Row :=
  stableSortDesc (sortVal col) data

/-- JS `sorted.slice(0, 20)`. -/
def topByVal (col : Option String) (data : List Row) : List Row :=
  (sortRowsDesc col data).take 20

/-- JS `.filter(Boolean)` over looked-up column titles. -/
def jsFilterBoolean (l : List (Option String)) : List String :=
  l.filterMap (fun o =>
    match o with
    | some s => if s == "" then none else some s
    | none => none)

/-- The designated numeric column of the deals board kind (line 180). -/
def dealsValueCol (keys : List String) : Option String :=
  findCol keys ["masked deal", "deal value", "value"]

/-- The fixed column subset of the deals detail table (line 242). -/
def dealsCols (keys : List String) : List String :=
  jsFilterBoolean
    [findCol keys ["deal status", "status"], dealsValueCol keys, findCol keys ["sector"],
     findCol keys ["deal stage", "stage"], findCol keys ["owner"],
     findCol keys ["probability", "closure prob"]]

/-- The rows of the deals detail table (lines 244-245): the cleaned rows,
stably sorted by descending parsed deal value, first 20. -/
def dealsTopRows (data : List Row) (keys : List String) : List Row :=
  topByVal (dealsValueCol keys) data

/-- A rendered cell of the deals table: `row[c] ?? '-'`. -/
def cellStr (row : Row) (c : String) : String :=
  match getProp row c with
  | JsVal.null => "-"
  | JsVal.str s => s

/-- JS `Array.prototype.join(sep)`. -/
def joinSep (sep : String) : List String → String
  | [] => ""
  | [x] => x
  | x :: y :: ys => x ++ sep ++ joinSep sep (y :: ys)

/-- One rendered line of the deals detail table (lines 246-247). -/
def renderDealsRow (cols : List String) (row : Row) : String :=
  displayOr row "-" ++ " | " ++ joinSep " | " (cols.map (cellStr row))

/-- The rendered lines of the deals detail table of `buildDealsSummary`. -/
def dealsTableLines (data : List Row) (keys : List String) : List String :=
  (dealsTopRows data keys).map (renderDealsRow (dealsCols keys))

/-- Function `formatNum` (dataCleaner.js lines 333-338): crore/lakh/thousand
abbreviation above fixed thresholds. -/
def formatNum (n : ℚ) : String :=
  if 10000000 ≤ n then qToFixed 2 (n / 10000000) ++ " Cr"
  else if 100000 ≤ n then qToFixed 2 (n / 100000) ++ " L"
  else if 1000 ≤ n then qToFixed 1 (n / 1000) ++ "K"
  else qToFixed 0 n

/-- The designated numeric column of the work-orders board kind (line 257). -/
def woAmtCol (keys : List String) : Option String :=
  findCol keys ["amount in rupees (excl", "amount.*excl"]

/-- The fixed column subset of the work-orders detail table (line 306). -/
def woCols (keys : List String) : List String :=
  jsFilterBoolean
    [findCol keys ["customer"], findCol keys ["nature of work", "nature"],
     findCol keys ["execution status", "execution"], findCol keys ["sector"],
     woAmtCol keys, findCol keys ["collected amount", "collected"],
     findCol keys ["amount receivable", "receivable"]]

/-- The rows of the work-orders detail table (lines 308-309). -/
def woTopRows (data : List Row) (keys : List String) : List Row :=
  topByVal (woAmtCol keys) data

/-- A rendered cell of the work-orders table (lines 310-315): numeric
values above 1000 are abbreviated. -/
def renderWoCell (row : Row) (c : String) : String :=
  match getProp row c with
  | JsVal.null => "-"
  | JsVal.str s =>
      match jsParseFloat s with
      | some x => if 1000 < x.toQ then formatNum x.toQ else s
      | none => s

/-- One rendered line of the work-orders detail table (line 317). -/
def renderWoRow (cols : List String) (row : Row) : String :=
  displayOr row "-" ++ " | " ++ joinSep " | " (cols.map (renderWoCell row))

/-- The rendered lines of the work-orders detail table of
`buildWorkOrdersSummary`. -/
def woTableLines (data : List Row) (keys : List String) : List String :=
  (woTopRows data keys).map (renderWoRow (woCols keys))

/-- The non-identity key titles a record actually carries: the resolved
titles of the fields on its own field list, identity-prefixed titles
excluded (amended form of the key-completeness invariant). -/
def recordKeyTitles (columns : List Column) (item : Item) : List String :=
  (item.column_values.map (fun cv => resolveTitle columns cv.id)).filter
    (fun t => !(underscoreFirst t))

/- Concrete inputs used by witnesses and counterexamples. -/

/-- A board whose single record carries no fields at all. -/
def exB1 : BoardInput :=
  ⟨some "B", some [⟨"c1", "Status"⟩], some [⟨"1", "X", []⟩]⟩

/-- One column titled "Status". -/
def exCols6 : List Column := [⟨"c1", "Status"⟩]

/-- A genuine record and an embedded-header record ("Status" under column
"Status"). -/
def exItems6 : List Item :=
  [⟨"1", "Keep", [⟨"c1", JsVal.str "Open"⟩]⟩,
   ⟨"2", "HdrItem", [⟨"c1", JsVal.str "Status"⟩]⟩]

/-- The flat row of the embedded-header record of `exItems6`. -/
def exHdrRow : Row :=
  buildRow exCols6 ⟨"2", "HdrItem", [⟨"c1", JsVal.str "Status"⟩]⟩

/-- The flat row of the genuine record of `exItems6`. -/
def exKeepRow : Row :=
  buildRow exCols6 ⟨"1", "Keep", [⟨"c1", JsVal.str "Open"⟩]⟩

/-- Eight plainly-titled columns. -/
def wCols3 : List Column :=
  [⟨"c1", "A"⟩, ⟨"c2", "B"⟩, ⟨"c3", "C"⟩, ⟨"c4", "D"⟩,
   ⟨"c5", "E"⟩, ⟨"c6", "F"⟩, ⟨"c7", "G"⟩, ⟨"c8", "H"⟩]

/-- Five full records over `wCols3` with six null fields in total, giving
`totalFields = 40` and `missingFields = 6`. -/
def wItems3 : List Item :=
  [⟨"1", "I1",
    [⟨"c1", JsVal.null⟩, ⟨"c2", JsVal.null⟩, ⟨"c3", JsVal.null⟩, ⟨"c4", JsVal.null⟩,
     ⟨"c5", JsVal.null⟩, ⟨"c6", JsVal.null⟩, ⟨"c7", JsVal.str "x"⟩, ⟨"c8", JsVal.str "x"⟩]⟩,
   ⟨"2", "I2",
    [⟨"c1", JsVal.str "x"⟩, ⟨"c2", JsVal.str "x"⟩, ⟨"c3", JsVal.str "x"⟩, ⟨"c4", JsVal.str "x"⟩,
     ⟨"c5", JsVal.str "x"⟩, ⟨"c6", JsVal.str "x"⟩, ⟨"c7", JsVal.str "x"⟩, ⟨"c8", JsVal.str "x"⟩]⟩,
   ⟨"3", "I3",
    [⟨"c1", JsVal.str "x"⟩, ⟨"c2", JsVal.str "x"⟩, ⟨"c3", JsVal.str "x"⟩, ⟨"c4", JsVal.str "x"⟩,
     ⟨"c5", JsVal.str "x"⟩, ⟨"c6", JsVal.str "x"⟩, ⟨"c7", JsVal.str "x"⟩, ⟨"c8", JsVal.str "x"⟩]⟩,
   ⟨"4", "I4",
    [⟨"c1", JsVal.str "x"⟩, ⟨"c2", JsVal.str "x"⟩, ⟨"c3", JsVal.str "x"⟩, ⟨"c4", JsVal.str "x"⟩,
     ⟨"c5", JsVal.str "x"⟩, ⟨"c6", JsVal.str "x"⟩, ⟨"c7", JsVal.str "x"⟩, ⟨"c8", JsVal.str "x"⟩]⟩,
   ⟨"5", "I5",
    [⟨"c1", JsVal.str "x"⟩, ⟨"c2", JsVal.str "x"⟩, ⟨"c3", JsVal.str "x"⟩, ⟨"c4", JsVal.str "x"⟩,
     ⟨"c5", JsVal.str "x"⟩, ⟨"c6", JsVal.str "x"⟩, ⟨"c7", JsVal.str "x"⟩, ⟨"c8", JsVal.str "x"⟩]⟩]

/-- A snapshot with columns and items present but `name` missing. -/
def exB8 : BoardInput := ⟨none, some [⟨"c1", "A"⟩], some []⟩

/-- A snapshot whose `columns` field is missing. -/
def exB8c : BoardInput := ⟨some "B", none, some []⟩

/-- A row whose value in column "Col" is the non-empty (hence JS-truthy)
string "0" and whose display name is "Rec". -/
def exRow10 : Row := [("_id", JsVal.str "9"), ("_name", JsVal.str "Rec"), ("Col", JsVal.str "0")]

/-- A two-row data set for the grouping witness. -/
def exData7 : List Row :=
  [[("_id", JsVal.str "1"), ("_name", JsVal.str "R1"), ("Status", JsVal.str "Open")],
   [("_id", JsVal.str "2"), ("_name", JsVal.str "R2"), ("Status", JsVal.null)]]

/-- The first row of `exData7`. -/
def exRow7 : Row :=
  [("_id", JsVal.str "1"), ("_name", JsVal.str "R1"), ("Status", JsVal.str "Open")]

/- Helper lemmas. -/

/-- One filter step keeps or removes exactly one row. -/
theorem filterStep_count (acc : List Row × ℕ × List String) (row : Row) :
    (filterStep acc row).1.length + (filterStep acc row).2.1 = acc.1.length + acc.2.1 + 1 := by
  unfold filterStep
  split_ifs <;> simp only [List.length_append, List.length_cons, List.length_nil] <;> omega

/-- The row-filter fold keeps-or-counts every processed row exactly once. -/
theorem filterFold_count (rows : List Row) :
    ∀ acc : List Row × ℕ × List String,
      (rows.foldl filterStep acc).1.length + (rows.foldl filterStep acc).2.1
        = acc.1.length + acc.2.1 + rows.length := by
  induction rows with
  | nil => intro acc; simp
  | cons r rest ih =>
      intro acc
      rw [List.foldl_cons, ih]
      have h := filterStep_count acc r
      simp only [List.length_cons]
      omega

/-- Every row kept by the filter fold came from the accumulator or from the
processed list. -/
theorem filterFold_kept_mem (rows : List Row) :
    ∀ (acc : List Row × ℕ × List String) (row : Row),
      row ∈ (rows.foldl filterStep acc).1 → row ∈ acc.1 ∨ row ∈ rows := by
  induction rows with
  | nil => intro acc row h; exact Or.inl h
  | cons r rest ih =>
      intro acc row h
      rw [List.foldl_cons] at h
      rcases ih (filterStep acc r) row h with hacc | hrest
      · unfold filterStep at hacc
        split_ifs at hacc with h1 h2
        · exact Or.inl hacc
        · exact Or.inl hacc
        · rcases List.mem_append.1 hacc with h3 | h3
          · exact Or.inl h3
          · exact Or.inr (List.mem_cons.2 (Or.inl (List.mem_singleton.1 h3)))
      · exact Or.inr (List.mem_cons_of_mem _ hrest)

/- Claim theorems. -/

/-- C2: for every snapshot, the stats of `cleanBoardData` satisfy
`cleanedRows + removedRows = totalRows`, and `totalRows` is the length of
the raw items list: every raw row is kept or counted as removed exactly
once. -/
theorem claim_C2 :
    ∀ (name : Option String) (columns : List Column) (items : List Item),
      (cleanBoardCore name columns items).stats.cleanedRows
          + (cleanBoardCore name columns items).stats.removedRows
        = (cleanBoardCore name columns items).stats.totalRows ∧
      (cleanBoardCore name columns items).stats.totalRows = items.length ∧
      cleanBoardData ⟨name, some columns, some items⟩
        = Except.ok (cleanBoardCore name columns items) := by
  intro name columns items
  refine ⟨?_, rfl, rfl⟩
  have h := filterFold_count (items.map (buildRow columns)) ([], 0, [])
  simp only [List.length_map, List.length_nil] at h
  have h1 : (cleanBoardCore name columns items).stats.cleanedRows
      = ((items.map (buildRow columns)).foldl filterStep ([], 0, [])).1.length := rfl
  have h2 : (cleanBoardCore name columns items).stats.removedRows
      = ((items.map (buildRow columns)).foldl filterStep ([], 0, [])).2.1 := rfl
  have h3 : (cleanBoardCore name columns items).stats.totalRows = items.length := rfl
  rw [h1, h2, h3]
  omega

/-- C8 counterexample: a snapshot whose `name` (the spec's `boardName`) is
missing is not rejected — `cleanBoardData` succeeds on it, so the claim
that a missing `boardName` fails with a malformed-input error is false. -/
theorem claim_C8_counterexample :
    exB8.name = none ∧ (cleanBoardData exB8).toOption.isSome = true := by
  constructor <;> rfl

/-- C8 amended: a snapshot missing `columns` or missing `items` (the
spec's `records`) makes `cleanBoardData` throw a `TypeError` immediately —
never an empty successful result — while a snapshot missing only the board
name is not detected and succeeds. -/
theorem claim_C8_amended :
    ∀ b : BoardInput,
      (b.columns = none →
          cleanBoardData b
            = Except.error
                (JsError.typeError "Cannot read properties of undefined (reading forEach)")) ∧
      (∀ cols, b.columns = some cols → b.items = none →
          cleanBoardData b
            = Except.error
                (JsError.typeError "Cannot read properties of undefined (reading map)")) ∧
      (∀ cols items, b.columns = some cols → b.items = some items →
          cleanBoardData b = Except.ok (cleanBoardCore b.name cols items)) := by
  intro b
  refine ⟨?_, ?_, ?_⟩
  · intro hc; simp [cleanBoardData, hc]
  · intro cols hc hi; simp [cleanBoardData, hc, hi]
  · intro cols items hc hi; simp [cleanBoardData, hc, hi]

/-- Witness for C8 amended: a concrete snapshot missing `columns` throws. -/
theorem claim_C8_amended_witness :
    cleanBoardData exB8c
      = Except.error
          (JsError.typeError "Cannot read properties of undefined (reading forEach)") :=
  (claim_C8_amended exB8c).1 rfl

/-- C10 counterexample: the record `exRow10` has the present, non-empty
value "0" in the grouping column and display name "Rec", yet `groupBy`
buckets it under "0" — not under its display name as the claim states. -/
theorem claim_C10_counterexample :
    getProp exRow10 "Col" = JsVal.str "0" ∧
    getProp exRow10 "_name" = JsVal.str "Rec" ∧
    groupBy [exRow10] "Col" = [("0", [exRow10])] := by
  refine ⟨rfl, rfl, rfl⟩

/-- C10 amended: grouping-key resolution follows JS truthiness, where the
only falsy strings are absent/null values and the empty string: a truthy
(non-empty) grouping value — including "0" — is its own group key; a null
or empty value falls back to the display name, and to "Unknown" when the
display name is also null or empty. -/
theorem claim_C10_amended :
    ∀ (row : Row) (key : String),
      (∀ s, getProp row key = JsVal.str s → s ≠ "" → groupKeyOf row key = s) ∧
      ((getProp row key = JsVal.null ∨ getProp row key = JsVal.str "") →
          (∀ s, getProp row "_name" = JsVal.str s → s ≠ "" → groupKeyOf row key = s) ∧
          ((getProp row "_name" = JsVal.null ∨ getProp row "_name" = JsVal.str "") →
              groupKeyOf row key = "Unknown")) ∧
      (∀ data : List Row, groupBy data key = data.foldl (groupStep key) []) := by
  intro row key
  refine ⟨?_, ?_, fun _ => rfl⟩
  · intro s h hs
    simp [groupKeyOf, h, hs]
  · intro h
    constructor
    · intro s hn hs
      rcases h with h | h <;> simp [groupKeyOf, nameKeyOf, h, hn, hs]
    · intro hn
      rcases h with h | h <;> rcases hn with hn | hn <;>
        simp [groupKeyOf, nameKeyOf, h, hn]

/-- Witness for C10 amended: the truthy value "0" is its own group key. -/
theorem claim_C10_amended_witness : groupKeyOf exRow10 "Col" = "0" :=
  (claim_C10_amended exRow10 "Col").1 "0" rfl (by decide)

/-- C4: date normalization is fixed day-first: every text matching
`D[D]/M[M]/YYYY` (with `/` or `-` separators) in a date column takes the
first group as day and the second as month, zero-padded into `YYYY-MM-DD`
("05/03/2024" under "Created Date" gives "2024-03-05"), and text matching
neither the ISO-prefix pattern nor this pattern is returned unchanged. -/
theorem claim_C4 :
    cleanValue (JsVal.str "05/03/2024") "Created Date" = JsVal.str "2024-03-05" ∧
    (∀ s d m y, parseDMY s = some (d, m, y) → hasIsoStart s = false →
        normalizeDate s = JsVal.str (y ++ "-" ++ padTo2 m ++ "-" ++ padTo2 d)) ∧
    (∀ s, s ≠ "" → hasIsoStart s = false → parseDMY s = none →
        normalizeDate s = JsVal.str s) := by
  refine ⟨by decide, ?_, ?_⟩
  · intro s d m y hp hiso
    have hs : s ≠ "" := by
      rintro rfl
      rw [show parseDMY "" = none from rfl] at hp
      cases hp
    simp [normalizeDate, hp, hiso, hs]
  · intro s hs hiso hp
    simp [normalizeDate, hp, hiso, hs]

/-- Witness for C4, at a day-first input with mixed padding and at an
unmatched input. -/
theorem claim_C4_witness :
    normalizeDate "5-3-2024" = JsVal.str "2024-03-05" ∧
    normalizeDate "hello" = JsVal.str "hello" := by
  constructor
  · exact (claim_C4.2.1 "5-3-2024" "5" "3" "2024" (by decide) (by decide)).trans (by decide)
  · exact claim_C4.2.2 "hello" (by decide) (by decide) (by decide)

/-- C5: numeric normalization strips currency symbols, separators and
whitespace, parses the rest as a number and renders its canonical decimal
string; on parse failure the original (trimmed) text is returned unchanged
and no exception escapes — in particular "₹1,25,000" under "Deal Value"
gives "125000". -/
theorem claim_C5 :
    cleanValue (JsVal.str "₹1,25,000") "Deal Value" = JsVal.str "125000" ∧
    (∀ s, s ≠ "" → jsParseFloat (stripCurrency s) = none →
        normalizeNumber s = JsVal.str s) ∧
    (∀ s x, s ≠ "" → jsParseFloat (stripCurrency s) = some x →
        normalizeNumber s = JsVal.str (jsNumToString x)) := by
  refine ⟨by decide, ?_, ?_⟩
  · intro s hs hp
    simp [normalizeNumber, hp, hs]
  · intro s x hs hp
    simp [normalizeNumber, hp, hs]

/-- Witness for C5, at a parse failure and at the claim's concrete input. -/
theorem claim_C5_witness :
    normalizeNumber "abc" = JsVal.str "abc" ∧
    normalizeNumber "₹1,25,000" = JsVal.str "125000" := by
  constructor
  · exact claim_C5.2.1 "abc" (by decide) (by decide)
  · exact (claim_C5.2.2 "₹1,25,000" ⟨false, 125000, 0⟩ (by decide) (by decide)).trans (by decide)

/-- C6: the row filter tests the empty-row rule A before the
embedded-header rule B; a record is dropped under rule B exactly when some
non-identity value is a string equal to its own column title, and such a
drop increments the removed counter and appends exactly one issue naming
the record — concretely, the record "HdrItem" whose only non-identity
value is "Status" under column "Status" is dropped with one such note. -/
theorem claim_C6 :
    (∀ acc row, ruleA row = true → filterStep acc row = (acc.1, acc.2.1 + 1, acc.2.2)) ∧
    (∀ acc row, ruleA row = false → isHeaderRow row = true →
        filterStep acc row = (acc.1, acc.2.1 + 1, acc.2.2 ++ [headerIssue row])) ∧
    (∀ acc row, ruleA row = false → isHeaderRow row = false →
        filterStep acc row = (acc.1 ++ [row], acc.2.1, acc.2.2)) ∧
    (∀ row, isHeaderRow row = true ↔ ∃ p ∈ nonIdentity row, p.2 = JsVal.str p.1) ∧
    ((cleanBoardCore (some "B") exCols6 exItems6).data = [exKeepRow] ∧
     (cleanBoardCore (some "B") exCols6 exItems6).stats.removedRows = 1 ∧
     (cleanBoardCore (some "B") exCols6 exItems6).qualityIssues
        = ["Removed embedded header row (item: \"HdrItem\")",
           "Removed 1 junk/empty/header rows"]) := by
  refine ⟨?_, ?_, ?_, ?_, by decide, by decide, by decide⟩
  · intro acc row h; simp [filterStep, h]
  · intro acc row h1 h2; simp [filterStep, h1, h2]
  · intro acc row h1 h2; simp [filterStep, h1, h2]
  · intro row
    unfold isHeaderRow
    rw [List.any_eq_true]
    constructor
    · rintro ⟨p, hp, hv⟩
      refine ⟨p, hp, ?_⟩
      rcases p with ⟨k, v⟩
      cases v with
      | null => simp at hv
      | str w => simp at hv; simp [hv]
    · rintro ⟨p, hp, hv⟩
      refine ⟨p, hp, ?_⟩
      rw [hv]
      simp

/-- Witness for C6: the embedded-header row is removed by rule B with its
one issue note, after rule A has passed it. -/
theorem claim_C6_witness :
    filterStep ([], 0, []) exHdrRow = ([], 1, [headerIssue exHdrRow]) ∧
    headerIssue exHdrRow = "Removed embedded header row (item: \"HdrItem\")" := by
  constructor
  · exact claim_C6.2.1 ([], 0, []) exHdrRow (by decide) (by decide)
  · decide

/-- Pushing a row into its group permutes to consing it onto the joint
content of all groups. -/
theorem pushGroup_snd_flatten_perm (k : String) (r : Row) (gs : List (String × List Row)) :
    ((pushGroup k r gs).map Prod.snd).flatten.Perm (r :: (gs.map Prod.snd).flatten) := by
  induction gs with
  | nil => simp [pushGroup]
  | cons g rest ih =>
      rcases g with ⟨kg, rs⟩
      by_cases h : kg == k
      · simp only [pushGroup, h, if_pos, List.map_cons, List.flatten_cons]
        rw [List.append_assoc]
        exact List.perm_middle
      · simp only [pushGroup, h, if_neg, Bool.false_eq_true, not_false_iff,
          List.map_cons, List.flatten_cons]
        exact (List.Perm.append_left rs ih).trans List.perm_middle

/-- The grouping fold preserves the joint content of the groups: it is a
permutation of the accumulator content followed by the processed rows. -/
theorem groupFold_flatten_perm (key : String) (data : List Row) :
    ∀ acc, ((data.foldl (groupStep key) acc).map Prod.snd).flatten.Perm
      ((acc.map Prod.snd).flatten ++ data) := by
  induction data with
  | nil => intro acc; simp
  | cons r rest ih =>
      intro acc
      rw [List.foldl_cons]
      refine (ih (groupStep key acc r)).trans ?_
      refine (List.Perm.append_right rest (pushGroup_snd_flatten_perm _ r acc)).trans ?_
      simpa using List.perm_middle.symm

/-- Looking up a pushed group: the pushed key gains exactly the new row at
the end; every other key is untouched. -/
theorem lookupG_pushGroup (k k' : String) (r : Row) (gs : List (String × List Row)) :
    lookupG (pushGroup k r gs) k'
      = if k = k' then lookupG gs k' ++ [r] else lookupG gs k' := by
  induction gs with
  | nil =>
      by_cases h : k = k' <;> simp [pushGroup, lookupG, h]
  | cons g rest ih =>
      rcases g with ⟨kg, rs⟩
      by_cases h1 : kg == k
      · have h1' : kg = k := by simpa using h1
        subst h1'
        by_cases h2 : kg = k' <;> simp [pushGroup, lookupG, h1, h2]
      · have h1' : kg ≠ k := by simpa using h1
        by_cases h2 : kg == k'
        · have h2' : kg = k' := by simpa using h2
          subst h2'
          simp [pushGroup, lookupG, h1, h2, Ne.symm h1']
        · simp [pushGroup, lookupG, h1, h2, ih]

/-- After the grouping fold, the group of key `k` holds exactly the
processed rows whose group key resolves to `k`, in order. -/
theorem lookupG_groupFold (key k : String) (data : List Row) :
    ∀ acc, lookupG (data.foldl (groupStep key) acc) k
      = lookupG acc k ++ data.filter (fun r => groupKeyOf r key == k) := by
  induction data with
  | nil => intro acc; simp
  | cons r rest ih =>
      intro acc
      rw [List.foldl_cons, ih]
      rw [show groupStep key acc r = pushGroup (groupKeyOf r key) r acc from rfl]
      rw [lookupG_pushGroup]
      by_cases h : groupKeyOf r key = k
      · simp [h, List.filter_cons, List.append_assoc]
      · simp [h, List.filter_cons]

/-- C7: every cleaned record lands in exactly one group of `groupBy`, so
the joint group content is a permutation of the input and the group record
counts sum to the cleaned row count; a record with no usable grouping
value still lands in a (sentinel-keyed) group rather than being dropped. -/
theorem claim_C7 :
    ∀ (data : List Row) (key : String),
      ((groupBy data key).map (fun g => g.2.length)).sum = data.length ∧
      ((groupBy data key).map Prod.snd).flatten.Perm data ∧
      (∀ row ∈ data, row ∈ lookupG (groupBy data key) (groupKeyOf row key)) := by
  intro data key
  have hperm : ((groupBy data key).map Prod.snd).flatten.Perm data := by
    have h := groupFold_flatten_perm key data []
    simpa [groupBy] using h
  refine ⟨?_, hperm, ?_⟩
  · have hlen := hperm.length_eq
    rw [List.length_flatten, List.map_map] at hlen
    simpa [Function.comp_def] using hlen
  · intro row hrow
    have h : lookupG (groupBy data key) (groupKeyOf row key)
        = data.filter (fun r => groupKeyOf r key == groupKeyOf row key) := by
      have h2 := lookupG_groupFold key (groupKeyOf row key) data []
      simpa [groupBy] using h2
    rw [h]
    exact List.mem_filter.2 ⟨hrow, by simp⟩

/-- Witness for C7: a concrete record is found in the group its key
resolves to. -/
theorem claim_C7_witness :
    exRow7 ∈ lookupG (groupBy exData7 "Status") (groupKeyOf exRow7 "Status") :=
  (claim_C7 exData7 "Status").2.2 exRow7 (by decide)

/-- The non-identity key set of the empty row is empty. -/
theorem keysetNonId_nil : keysetNonId [] = ∅ := rfl

/-- The non-identity key set of a cons: identity-prefixed keys are
invisible, other keys are inserted. -/
theorem keysetNonId_cons (k : String) (v : JsVal) (rest : Row) :
    keysetNonId ((k, v) :: rest)
      = if underscoreFirst k then keysetNonId rest else insert k (keysetNonId rest) := by
  by_cases h : underscoreFirst k <;>
    simp [keysetNonId, nonIdentity, List.filter_cons, h]

/-- Property assignment adds exactly its own key to the non-identity key
set (or nothing, for an identity-prefixed key). -/
theorem keysetNonId_upsert (k : String) (v : JsVal) (row : Row) :
    keysetNonId (upsert k v row)
      = if underscoreFirst k then keysetNonId row else insert k (keysetNonId row) := by
  induction row with
  | nil => simp [upsert, keysetNonId_cons, keysetNonId_nil]
  | cons p rest ih =>
      rcases p with ⟨k', v'⟩
      by_cases hk : k' == k
      · have hk' : k' = k := by simpa using hk
        subst hk'
        by_cases hu : underscoreFirst k'
        · simp [upsert, keysetNonId_cons, hu]
        · simp [upsert, keysetNonId_cons, hu, Finset.insert_idem]
      · have hup : upsert k v ((k', v') :: rest) = (k', v') :: upsert k v rest := by
          simp [upsert, hk]
        rw [hup, keysetNonId_cons, keysetNonId_cons, ih]
        by_cases hu' : underscoreFirst k'
        · by_cases hu : underscoreFirst k <;> simp [hu', hu]
        · by_cases hu : underscoreFirst k
          · simp [hu', hu]
          · simp [hu', hu, Finset.Insert.comm k' k]

/-- The row-building fold accumulates exactly the non-identity resolved
titles of the processed fields into the key set. -/
theorem keysetNonId_foldRow (columns : List Column) (cvs : List ColumnValue) :
    ∀ row : Row,
      keysetNonId (cvs.foldl (rowStep columns) row)
        = keysetNonId row
            ∪ ((cvs.map (fun cv => resolveTitle columns cv.id)).filter
                (fun t => !(underscoreFirst t))).toFinset := by
  induction cvs with
  | nil => intro row; simp
  | cons cv rest ih =>
      intro row
      rw [List.foldl_cons, ih]
      rw [show rowStep columns row cv
            = upsert (resolveTitle columns cv.id)
                (cleanValue cv.text (resolveTitle columns cv.id)) row from rfl]
      rw [keysetNonId_upsert]
      by_cases hu : underscoreFirst (resolveTitle columns cv.id)
      · simp [List.filter_cons, hu]
      · simp [List.filter_cons, hu, Finset.insert_union, Finset.union_insert]

/-- C1 counterexample: on the board `exB1` the single cleaned record
(whose source record carried no fields) has an empty non-identity key set,
while the board's non-identity column-title set is {"Status"} — so the
key set does not equal the board's column-title set and a column with no
field on the record does not appear as a key. -/
theorem claim_C1_counterexample :
    (cleanBoardData exB1).toOption.map (fun cb => (cb.data.map keysetNonId, cb.columns))
      = some ([∅], ["Status"]) ∧
    (∅ : Finset String) ≠ (["Status"] : List String).toFinset := by
  constructor
  · decide
  · decide

/-- C1 amended: the non-identity key set of every cleaned record equals
the set of non-identity resolved titles of the fields actually present on
its source record's field list (not the board's full column-title set),
and every record of a cleaned board arises this way from some source
item. -/
theorem claim_C1_amended :
    (∀ (columns : List Column) (item : Item),
        keysetNonId (buildRow columns item) = (recordKeyTitles columns item).toFinset) ∧
    (∀ (name : Option String) (columns : List Column) (items : List Item) (row : Row),
        row ∈ (cleanBoardCore name columns items).data →
          ∃ item ∈ items, row = buildRow columns item) := by
  constructor
  · intro columns item
    unfold buildRow recordKeyTitles
    rw [keysetNonId_foldRow]
    have h1 : underscoreFirst "_id" = true := by decide
    have h2 : underscoreFirst "_name" = true := by decide
    rw [show keysetNonId [("_id", JsVal.str item.id), ("_name", JsVal.str item.name)] = ∅ from by
      simp [keysetNonId_cons, h1, h2, keysetNonId_nil]]
    exact Finset.empty_union _
  · intro name columns items row hrow
    have hdata : (cleanBoardCore name columns items).data
        = ((items.map (buildRow columns)).foldl filterStep ([], 0, [])).1 := rfl
    rw [hdata] at hrow
    rcases filterFold_kept_mem (items.map (buildRow columns)) ([], 0, []) row hrow with h | h
    · exact absurd h (List.not_mem_nil row)
    · rcases List.mem_map.1 h with ⟨item, hitem, heq⟩
      exact ⟨item, hitem, heq.symm⟩

/-- Witness for C1 amended, at a record carrying one field. -/
theorem claim_C1_amended_witness :
    keysetNonId (buildRow exCols6 ⟨"1", "Keep", [⟨"c1", JsVal.str "Open"⟩]⟩)
      = (recordKeyTitles exCols6 ⟨"1", "Keep", [⟨"c1", JsVal.str "Open"⟩]⟩).toFinset ∧
    ∃ item ∈ exItems6, exKeepRow = buildRow exCols6 item := by
  refine ⟨claim_C1_amended.1 exCols6 _,
    claim_C1_amended.2 (some "B") exCols6 exItems6 exKeepRow ?_⟩
  decide

/-- The tenths count computed by integer arithmetic in `fixed1DigitsNN` is
the exactly rounded rational `(a/t) × 10 + 1/2`, floored. -/
theorem tenths_div (a t : ℕ) (ht : t ≠ 0) :
    (20 * a + t) / (2 * t) = ⌊((a : ℚ) / t) * 10 + 1 / 2⌋₊ := by
  have ht' : (t : ℚ) ≠ 0 := Nat.cast_ne_zero.2 ht
  have h : ((a : ℚ) / t) * 10 + 1 / 2 = ((20 * a + t : ℕ) : ℚ) / ((2 * t : ℕ) : ℚ) := by
    push_cast
    field_simp
    ring
  rw [h, Nat.floor_div_eq_div]

/-- The pipeline's integer `toFixed(1)` on the completeness ratio agrees
with the specification-level rational rounding. -/
theorem fixed1Ratio_eq_qToFixed1 (m t : ℕ) (ht : t ≠ 0) :
    fixed1Ratio (((t : ℤ) - m) * 100) t = qToFixed1 ((1 - (m : ℚ) / t) * 100) := by
  have htq : (0 : ℚ) < t := by
    exact_mod_cast Nat.pos_of_ne_zero ht
  by_cases hmt : m ≤ t
  · have hnum : ((t : ℤ) - m) * 100 = (((t - m) * 100 : ℕ) : ℤ) := by
      push_cast [hmt]; ring
    have hq : (1 - (m : ℚ) / t) * 100 = (((t - m) * 100 : ℕ) : ℚ) / t := by
      push_cast [hmt]
      field_simp
    have hn0 : ¬(((t : ℤ) - m) * 100 < 0) := by
      rw [hnum]; exact not_lt.2 (Int.natCast_nonneg _)
    have hq0 : ¬((1 - (m : ℚ) / t) * 100 < 0) := by
      rw [hq]; exact not_lt.2 (by positivity)
    rw [fixed1Ratio, if_neg hn0, qToFixed1, if_neg hq0]
    rw [fixed1DigitsNN, hnum, Int.toNat_natCast, hq, tenths_div _ t ht]
  · have hmt' : t < m := lt_of_not_le hmt
    have hmt'' : t ≤ m := le_of_lt hmt'
    have hnum : (-(((t : ℤ) - m) * 100)).toNat = (m - t) * 100 := by
      have h : -(((t : ℤ) - m) * 100) = (((m - t) * 100 : ℕ) : ℤ) := by
        push_cast [hmt'']; ring
      rw [h, Int.toNat_natCast]
    have hn0 : ((t : ℤ) - m) * 100 < 0 := by
      have h : (t : ℤ) < m := by exact_mod_cast hmt'
      have : (t : ℤ) - m < 0 := sub_neg.2 h
      nlinarith
    have hq : -((1 - (m : ℚ) / t) * 100) = (((m - t) * 100 : ℕ) : ℚ) / t := by
      push_cast [hmt'']
      field_simp
      ring
    have hq0 : (1 - (m : ℚ) / t) * 100 < 0 := by
      have h1 : 1 < (m : ℚ) / t := (one_lt_div htq).2 (by exact_mod_cast hmt')
      nlinarith
    rw [fixed1Ratio, if_pos hn0, qToFixed1, if_pos hq0]
    rw [fixed1DigitsNN, hnum, hq, tenths_div _ t ht]

/-- C3: `totalFields = cleanedRows × distinctColumnCount`, and the
completeness statistic is `(1 − missingFields/totalFields) × 100` rounded
to one decimal place (the string "100" when `totalFields = 0`); any input
with `totalFields = 40` and `missingFields = 6` has completeness exactly
"85.0". -/
theorem claim_C3 :
    ∀ (name : Option String) (columns : List Column) (items : List Item),
      (cleanBoardCore name columns items).stats.totalFields
          = (cleanBoardCore name columns items).stats.cleanedRows * colMapSize columns ∧
      (cleanBoardCore name columns items).stats.completeness
          = (if (cleanBoardCore name columns items).stats.totalFields = 0 then "100"
             else qToFixed1
               ((1 - ((cleanBoardCore name columns items).stats.missingFields : ℚ)
                   / ((cleanBoardCore name columns items).stats.totalFields : ℚ)) * 100)) ∧
      ((cleanBoardCore name columns items).stats.totalFields = 40 →
       (cleanBoardCore name columns items).stats.missingFields = 6 →
       (cleanBoardCore name columns items).stats.completeness = "85.0") := by
  intro name columns items
  have hcomp : (cleanBoardCore name columns items).stats.completeness
      = if (cleanBoardCore name columns items).stats.totalFields = 0 then "100"
        else fixed1Ratio
          ((((cleanBoardCore name columns items).stats.totalFields : ℤ)
              - ((cleanBoardCore name columns items).stats.missingFields : ℤ)) * 100)
          (cleanBoardCore name columns items).stats.totalFields := rfl
  refine ⟨rfl, ?_, ?_⟩
  · rw [hcomp]
    by_cases ht : (cleanBoardCore name columns items).stats.totalFields = 0
    · rw [if_pos ht, if_pos ht]
    · rw [if_neg ht, if_neg ht, fixed1Ratio_eq_qToFixed1 _ _ ht]
  · intro h40 h6
    rw [hcomp, h40, h6]
    rw [if_neg (by norm_num)]
    decide

/-- Witness for C3: a concrete 8-column, 5-row board with 6 missing fields
has `totalFields = 40`, `missingFields = 6` and completeness "85.0". -/
theorem claim_C3_witness :
    (cleanBoardCore (some "W") wCols3 wItems3).stats.completeness = "85.0" :=
  (claim_C3 (some "W") wCols3 wItems3).2.2 (by decide) (by decide)

/-- Stable descending insertion permutes to a cons. -/
theorem insertDesc_perm {α : Type} (f : α → ℚ) (x : α) (l : List α) :
    (insertDesc f x l).Perm (x :: l) := by
  induction l with
  | nil => simp [insertDesc]
  | cons y ys ih =>
      rw [insertDesc]
      by_cases h : f x ≤ f y
      · rw [if_pos h]
        exact (ih.cons y).trans (List.Perm.swap x y ys)
      · rw [if_neg h]

/-- Stable descending insertion preserves descending sortedness. -/
theorem insertDesc_pairwise {α : Type} (f : α → ℚ) (x : α) (l : List α)
    (h : l.Pairwise (fun a b => f b ≤ f a)) :
    (insertDesc f x l).Pairwise (fun a b => f b ≤ f a) := by
  induction l with
  | nil => simp [insertDesc]
  | cons y ys ih =>
      rw [List.pairwise_cons] at h
      obtain ⟨hy, hys⟩ := h
      rw [insertDesc]
      by_cases hle : f x ≤ f y
      · rw [if_pos hle, List.pairwise_cons]
        refine ⟨?_, ih hys⟩
        intro z hz
        rcases List.mem_cons.1 ((insertDesc_perm f x ys).mem_iff.1 hz) with rfl | hz'
        · exact hle
        · exact hy z hz'
      · rw [if_neg hle]
        have hxy : f y ≤ f x := le_of_not_le hle
        rw [List.pairwise_cons]
        refine ⟨?_, List.pairwise_cons.2 ⟨hy, hys⟩⟩
        intro z hz
        rcases List.mem_cons.1 hz with rfl | hz'
        · exact hxy
        · exact le_trans (hy z hz') hxy

/-- The sorting fold permutes to the accumulator followed by the input. -/
theorem sortFold_perm {α : Type} (f : α → ℚ) (l : List α) :
    ∀ acc, (l.foldl (fun a x => insertDesc f x a) acc).Perm (acc ++ l) := by
  induction l with
  | nil => intro acc; simp
  | cons x xs ih =>
      intro acc
      rw [List.foldl_cons]
      refine (ih (insertDesc f x acc)).trans ?_
      refine (List.Perm.append_right xs (insertDesc_perm f x acc)).trans ?_
      simpa using List.perm_middle.symm

/-- The stable descending sort is a permutation of its input. -/
theorem stableSortDesc_perm {α : Type} (f : α → ℚ) (l : List α) :
    (stableSortDesc f l).Perm l := by
  simpa using sortFold_perm f l []

/-- The sorting fold yields a descending-sorted list from a sorted
accumulator. -/
theorem sortFold_pairwise {α : Type} (f : α → ℚ) (l : List α) :
    ∀ acc, acc.Pairwise (fun a b => f b ≤ f a) →
      (l.foldl (fun a x => insertDesc f x a) acc).Pairwise (fun a b => f b ≤ f a) := by
  induction l with
  | nil => intro acc h; exact h
  | cons x xs ih =>
      intro acc h
      rw [List.foldl_cons]
      exact ih _ (insertDesc_pairwise f x acc h)

/-- The stable descending sort is descending-sorted. -/
theorem stableSortDesc_pairwise {α : Type} (f : α → ℚ) (l : List α) :
    (stableSortDesc f l).Pairwise (fun a b => f b ≤ f a) :=
  sortFold_pairwise f l [] (by simp)

/-- Inserting an element whose key fails the filter leaves the filtered
list unchanged (elements keep their relative order). -/
theorem filter_insertDesc_notkey {α : Type} (f : α → ℚ) (p : α → Bool) (x : α) (l : List α)
    (hx : p x = false) :
    (insertDesc f x l).filter p = l.filter p := by
  induction l with
  | nil => simp [insertDesc, hx]
  | cons y ys ih =>
      rw [insertDesc]
      by_cases h : f x ≤ f y
      · rw [if_pos h, List.filter_cons, List.filter_cons]
        by_cases hy : p y <;> simp [hy, ih]
      · rw [if_neg h]
        simp [List.filter_cons, hx]

/-- Inserting an element of key `c` into a descending-sorted list appends
it at the end of the key-`c` block: stability of the insertion. -/
theorem filter_insertDesc_key {α : Type} (f : α → ℚ) (c : ℚ) (x : α) (l : List α)
    (hx : f x = c) (hl : l.Pairwise (fun a b => f b ≤ f a)) :
    (insertDesc f x l).filter (fun y => decide (f y = c))
      = l.filter (fun y => decide (f y = c)) ++ [x] := by
  induction l with
  | nil => simp [insertDesc, hx]
  | cons y ys ih =>
      rw [List.pairwise_cons] at hl
      obtain ⟨hy, hys⟩ := hl
      rw [insertDesc]
      by_cases h : f x ≤ f y
      · rw [if_pos h, List.filter_cons, List.filter_cons]
        by_cases hpy : f y = c
        · simp [hpy, ih hys]
        · simp [hpy, ih hys]
      · rw [if_neg h]
        have hlt : f y < f x := lt_of_not_le h
        have hfil : (y :: ys).filter (fun z => decide (f z = c)) = [] := by
          refine List.filter_eq_nil_iff.2 ?_
          intro z hz
          have hzc : f z < c := by
            rw [← hx]
            rcases List.mem_cons.1 hz with rfl | hz'
            · exact hlt
            · exact lt_of_le_of_lt (hy z hz') hlt
          simpa using ne_of_lt hzc
        rw [List.filter_cons]
        simp [hx, hfil]

/-- The sorting fold commutes with filtering on one key value, given a
sorted accumulator. -/
theorem filter_sortFold {α : Type} (f : α → ℚ) (c : ℚ) (l : List α) :
    ∀ acc, acc.Pairwise (fun a b => f b ≤ f a) →
      (l.foldl (fun a x => insertDesc f x a) acc).filter (fun y => decide (f y = c))
        = acc.filter (fun y => decide (f y = c)) ++ l.filter (fun y => decide (f y = c)) := by
  induction l with
  | nil => intro acc _; simp
  | cons x xs ih =>
      intro acc hacc
      rw [List.foldl_cons, ih _ (insertDesc_pairwise f x acc hacc)]
      by_cases hx : f x = c
      · rw [filter_insertDesc_key f c x acc hx hacc, List.filter_cons]
        simp [hx, List.append_assoc]
      · rw [filter_insertDesc_notkey f _ x acc (by simp [hx]), List.filter_cons]
        simp [hx]

/-- The stable descending sort keeps each equal-key block in input order. -/
theorem stableSortDesc_filter {α : Type} (f : α → ℚ) (c : ℚ) (l : List α) :
    (stableSortDesc f l).filter (fun y => decide (f y = c))
      = l.filter (fun y => decide (f y = c)) := by
  simpa using filter_sortFold f c l [] (by simp)

/-- C9: each recognized board kind's detail table holds at most 20 records
— the take-20 of the cleaned rows stably sorted by descending parsed value
of that kind's designated numeric column (so sortedness, permutation of
the input and original order within equal keys all hold), rendered over
the kind's fixed column subset. -/
theorem claim_C9 :
    ∀ (data : List Row) (keys : List String) (col : Option String) (q : ℚ),
      (dealsTopRows data keys).length ≤ 20 ∧
      (woTopRows data keys).length ≤ 20 ∧
      dealsTopRows data keys = (sortRowsDesc (dealsValueCol keys) data).take 20 ∧
      woTopRows data keys = (sortRowsDesc (woAmtCol keys) data).take 20 ∧
      (sortRowsDesc col data).Pairwise (fun a b => sortVal col b ≤ sortVal col a) ∧
      (sortRowsDesc col data).Perm data ∧
      (sortRowsDesc col data).filter (fun r => decide (sortVal col r = q))
        = data.filter (fun r => decide (sortVal col r = q)) ∧
      dealsTableLines data keys
        = (dealsTopRows data keys).map (renderDealsRow (dealsCols keys)) ∧
      woTableLines data keys = (woTopRows data keys).map (renderWoRow (woCols keys)) := by
  intro data keys col q
  refine ⟨?_, ?_, rfl, rfl, ?_, ?_, ?_, rfl, rfl⟩
  · show ((sortRowsDesc (dealsValueCol keys) data).take 20).length ≤ 20
    rw [List.length_take]
    exact min_le_left _ _
  · show ((sortRowsDesc (woAmtCol keys) data).take 20).length ≤ 20
    rw [List.length_take]
    exact min_le_left _ _
  · exact stableSortDesc_pairwise (sortVal col) data
  · exact stableSortDesc_perm (sortVal col) data
  · exact stableSortDesc_filter (sortVal col) q data

end DC
